import Mathlib

/-!
Verification of the droid-rig playback engine against its specification.

The definitions below are a shallow embedding of the Python sources:
* `getValueAtTime` embeds `_get_value_at_time` from `droidrig/web/app.py`
  (the Interpolator of the spec);
* `sampleAnimation` embeds the keyframe-generation loop of
  `play_saved_animation` in `droidrig/web/app.py`;
* `Servo`, `setPosition`, `getPosition` embed `ServoController` from
  `droidrig/hardware/servo.py`;
* `Audio`, `audioPlay`, `audioStop` embed `AudioPlayer` from
  `droidrig/audio/player.py`;
* `runSession`, `playKeyframes`, `playPreset`, `animStop`,
  `delayedAudioFire` embed `Animator` from `droidrig/animation/animator.py`.

Python float arithmetic on the values that occur here (small integers
divided by 1000, 50, or a step count) is exact, so it is modelled by exact
rational arithmetic.  In executable definitions rationals are carried as
unnormalised fractions (`Frac`, plain integer arithmetic, so that concrete
runs reduce inside `decide`); specification-level statements use `ℚ`,
`Int.floor` and `Int.ceil`, and bridge lemmas connect the two.  Python's
`int()` is truncation toward zero (`pyInt`), Python's `round()` is
round-half-to-even (`pyRound`).
-/

namespace DroidRig

/-- Python `int(q)` on a real value: truncation toward zero. -/
def pyInt (q : ℚ) : Int := if 0 ≤ q then ⌊q⌋ else ⌈q⌉

/-- Python `round(q)` on a real value: round half to even, as CPython does. -/
def pyRound (q : ℚ) : Int :=
  if q - ⌊q⌋ < 1/2 then ⌊q⌋
  else if 1/2 < q - ⌊q⌋ then ⌊q⌋ + 1
  else if ⌊q⌋ % 2 = 0 then ⌊q⌋ else ⌊q⌋ + 1

/-- An exact rational carried as an unnormalised fraction.  All fractions
built by the embedding have a positive denominator. -/
structure Frac where
  n : Int
  d : Int
deriving DecidableEq, Repr

namespace Frac

/-- The rational value of a fraction. -/
def val (f : Frac) : ℚ := (f.n : ℚ) / (f.d : ℚ)

/-- Embed an integer. -/
def ofInt (i : Int) : Frac := ⟨i, 1⟩

/-- Exact addition. -/
def add (f g : Frac) : Frac := ⟨f.n * g.d + g.n * f.d, f.d * g.d⟩

/-- Exact subtraction. -/
def sub (f g : Frac) : Frac := ⟨f.n * g.d - g.n * f.d, f.d * g.d⟩

/-- Exact multiplication. -/
def mul (f g : Frac) : Frac := ⟨f.n * g.n, f.d * g.d⟩

/-- Exact division. -/
def div (f g : Frac) : Frac := ⟨f.n * g.d, f.d * g.n⟩

/-- Negation. -/
def neg (f : Frac) : Frac := ⟨-f.n, f.d⟩

/-- Absolute value (for a positive denominator). -/
def fabs (f : Frac) : Frac := ⟨|f.n|, f.d⟩

/-- Strict comparison, valid for positive denominators. -/
def blt (f g : Frac) : Bool := decide (f.n * g.d < g.n * f.d)

/-- Non-strict comparison, valid for positive denominators. -/
def ble (f g : Frac) : Bool := decide (f.n * g.d ≤ g.n * f.d)

/-- Python `int()` of the value, valid for a positive denominator. -/
def trunc (f : Frac) : Int := Int.tdiv f.n f.d

/-- Python `round()` of the value, valid for a positive denominator:
round half to even on the exact fraction. -/
def round (f : Frac) : Int :=
  let fl := Int.fdiv f.n f.d
  let r2 := 2 * (f.n - fl * f.d)
  if r2 < f.d then fl
  else if f.d < r2 then fl + 1
  else if fl % 2 = 0 then fl else fl + 1

end Frac

/-- A curve control point, `{"time": ..., "pulse": ...}` in the JSON of
`droidrig/web/app.py`. -/
structure Point where
  time : Int
  pulse : Int
deriving DecidableEq, Repr

/-- One iteration of the scan loop of `_get_value_at_time`
(`droidrig/web/app.py`): `if p["time"] <= time: before = p`
`elif after is None: after = p`. -/
def scanStep (t : Int) (ba : Option Point × Option Point) (p : Point) :
    Option Point × Option Point :=
  if p.time ≤ t then (some p, ba.2)
  else
    match ba.2 with
    | none => (ba.1, some p)
    | some _ => ba

/-- `_get_value_at_time(points, time, default)` from `droidrig/web/app.py`:
scan for the last point at or before `t` and the first point after `t`,
then hold or linearly interpolate
(`t = (time - before["time"]) / (after["time"] - before["time"])`;
`round(before["pulse"] + (after["pulse"] - before["pulse"]) * t)`). -/
def getValueAtTime (points : List Point) (t : Int) (default : Int) : Int :=
  if points.isEmpty then default
  else
    match points.foldl (scanStep t) (none, none) with
    | (none, none) => default
    | (none, some a) => a.pulse
    | (some b, none) => b.pulse
    | (some b, some a) =>
        (Frac.add (Frac.ofInt b.pulse)
          (Frac.mul (Frac.sub (Frac.ofInt a.pulse) (Frac.ofInt b.pulse))
            (Frac.div (Frac.sub (Frac.ofInt t) (Frac.ofInt b.time))
              (Frac.sub (Frac.ofInt a.time) (Frac.ofInt b.time))))).round

/-- First-some choice on options (the value a scan variable holds after
possibly being overwritten). -/
def optOr {α : Type} : Option α → Option α → Option α
  | some a, _ => some a
  | none, b => b

/-- The `before` variable after the scan: the last point with `time ≤ t`. -/
def lastLe (points : List Point) (t : Int) : Option Point :=
  (points.filter (fun p => decide (p.time ≤ t))).getLast?

/-- The `after` variable after the scan: the first point with `time > t`. -/
def firstGt (points : List Point) (t : Int) : Option Point :=
  points.find? (fun p => decide (t < p.time))

/-- `MIN_PULSE` from `droidrig/config.py`. -/
def MIN_PULSE : Int := 800

/-- `MAX_PULSE` from `droidrig/config.py`. -/
def MAX_PULSE : Int := 2500

/-- `CENTER_PULSE` from `droidrig/config.py`. -/
def CENTER_PULSE : Int := 1500

/-- `STEP` from `droidrig/config.py` (pulse increment per preset step). -/
def STEP : Int := 20

/-- `DELAY` from `droidrig/config.py`: `0.02` seconds between steps. -/
def DELAY : Frac := ⟨1, 50⟩

/-- Lookup in a Python-dict-like association list. -/
def alGet {α : Type} : List (Nat × α) → Nat → Option α
  | [], _ => none
  | (k, v) :: rest, ch => if k = ch then some v else alGet rest ch

/-- Update in a Python-dict-like association list (replace in place, else
append, matching dict insertion order). -/
def alSet {α : Type} : List (Nat × α) → Nat → α → List (Nat × α)
  | [], k, v => [(k, v)]
  | (k', v') :: rest, k, v =>
      if k' = k then (k, v) :: rest else (k', v') :: alSet rest k v

/-- `ServoSettings` from `droidrig/servo_config.py` (the fields the engine
reads). -/
structure ServoSettings where
  minPulse : Int := MIN_PULSE
  maxPulse : Int := MAX_PULSE
  centerPulse : Int := CENTER_PULSE
deriving DecidableEq, Repr

/-- The observable state of `ServoController`
(`droidrig/hardware/servo.py`): per-servo settings and the last applied
pulse per channel. -/
structure Servo where
  config : List (Nat × ServoSettings)
  positions : List (Nat × Int)
deriving DecidableEq, Repr

/-- `ServoConfigStore.get_servo`: stored settings or defaults. -/
def getServoCfg (s : Servo) (ch : Nat) : ServoSettings :=
  (alGet s.config ch).getD {}

/-- `ServoController.set_position`: clamp to the servo's configured range,
apply, record, and return the clamped value. -/
def setPosition (s : Servo) (ch : Nat) (position : Int) : Int × Servo :=
  let cfg := getServoCfg s ch
  let clamped := max cfg.minPulse (min cfg.maxPulse position)
  (clamped, { s with positions := alSet s.positions ch clamped })

/-- `ServoController.get_position`: last applied pulse, or the configured
center if never set. -/
def getPosition (s : Servo) (ch : Nat) : Int :=
  (alGet s.positions ch).getD (getServoCfg s ch).centerPulse

/-- The observable state of `AudioPlayer` (`droidrig/audio/player.py`):
whether a track is selected (`current_audio_file` truthy), whether that
file exists on disk, the `_is_playing` flag, whether an external process
is live, how many external processes were ever spawned, and the
configured latency offset in milliseconds. -/
structure Audio where
  hasTrack : Bool
  fileExists : Bool
  isPlaying : Bool
  liveProc : Bool
  spawned : Nat
  offsetMs : Int
deriving DecidableEq, Repr

/-- `AudioPlayer.play(wait_for_start)`: refuse if no current file or the
file is gone from disk; refuse under the lock if already playing;
otherwise mark playing and spawn one external process.  The
`wait_for_start` argument only controls blocking, not state. -/
def audioPlay (_w : Bool) (a : Audio) : Bool × Audio :=
  if !a.hasTrack || !a.fileExists then (false, a)
  else if a.isPlaying then (false, a)
  else (true, { a with isPlaying := true, liveProc := true, spawned := a.spawned + 1 })

/-- `AudioPlayer.stop`: terminate any live process and clear the playing
flag. -/
def audioStop (a : Audio) : Audio :=
  { a with liveProc := false, isPlaying := false }

/-- `AudioPlayer.get_latency_offset_sec`: `audio_offset_ms / 1000.0`. -/
def getLatencyOffsetSec (a : Audio) : Frac :=
  Frac.div (Frac.ofInt a.offsetMs) (Frac.ofInt 1000)

/-- Externally visible actions of one playback run. -/
inductive Ev where
  | setPos (ch : Nat) (pulse : Int)
  | audioPlay (waitForStart : Bool)
  | sleep (seconds : Frac)
deriving DecidableEq, Repr

/-- The shared state of `Animator` (`droidrig/animation/animator.py`):
the `_is_animating` flag, the `_stop_requested` flag, the servo
controller, and the optional audio player. -/
structure Anim where
  isAnimating : Bool
  stopRequested : Bool
  servo : Servo
  audio : Option Audio
deriving DecidableEq, Repr

/-- The outcome of one `play_preset`/`play_keyframes` call: the returned
value (`none` models an exception propagating out of the `try` block),
the final shared state, the synchronous action trace, and the delay of a
deferred audio-start timer if one was scheduled. -/
structure SessionOut where
  result : Option Bool
  state : Anim
  events : List Ev
  deferred : Option Frac
deriving DecidableEq, Repr

/-- The claim/release wrapper shared by `play_preset` and
`play_keyframes`: under the lock, return `False` if `_is_animating`,
else set `_is_animating` and clear `_stop_requested`; run the body inside
`try`; the `finally` clause clears `_is_animating` on every exit path. -/
def runSession (body : Anim → SessionOut) (s : Anim) : SessionOut :=
  if s.isAnimating then
    { result := some false, state := s, events := [], deferred := none }
  else
    let o := body { s with isAnimating := true, stopRequested := false }
    { o with state := { o.state with isAnimating := false } }

/-- One keyframe dict: optional `"duration"` (default 500 ms) and the
`"servos"` mapping with integer channel keys. -/
structure Keyframe where
  duration : Option Int
  servos : List (Nat × Int)
deriving DecidableEq, Repr

/-- The scheduler-side clamp in the keyframe loop:
`pos = max(MIN_PULSE, min(MAX_PULSE, pos))`. -/
def clampPulse (p : Int) : Int := max MIN_PULSE (min MAX_PULSE p)

/-- One iteration of the per-channel loop of `play_keyframes`: read the
frame-start position for this channel, interpolate at progress `t`,
truncate with `int()`, clamp globally, and write through the servo
controller. -/
def applyTargetStep (starts : List (Nat × Int)) (t : Frac)
    (acc : Servo × List Ev) (ct : Nat × Int) : Servo × List Ev :=
  let start := (alGet starts ct.1).getD CENTER_PULSE
  let pos := (Frac.add (Frac.ofInt start)
    (Frac.mul (Frac.sub (Frac.ofInt ct.2) (Frac.ofInt start)) t)).trunc
  let pos2 := clampPulse pos
  ((setPosition acc.1 ct.1 pos2).2, acc.2 ++ [Ev.setPos ct.1 pos2])

/-- Inner loop of `play_keyframes`: apply every `(channel, target)` of the
frame at progress `t`. -/
def applyTargets (sv : Servo) (targets starts : List (Nat × Int)) (t : Frac) :
    Servo × List Ev :=
  targets.foldl (applyTargetStep starts t) (sv, [])

/-- One iteration of the step loop: check the stop flag, compute
`t = step_num / steps`, apply all targets, sleep `DELAY`. -/
def stepFun (stop : Bool) (targets starts : List (Nat × Int)) (steps : Nat)
    (acc : Servo × List Ev) (n : Nat) : Servo × List Ev :=
  if stop then acc
  else
    let t := Frac.div (Frac.ofInt (n : Int)) (Frac.ofInt (steps : Int))
    let r := applyTargets acc.1 targets starts t
    (r.1, acc.2 ++ r.2 ++ [Ev.sleep DELAY])

/-- Step loop of one frame: `for step_num in range(steps + 1)`. -/
def stepsLoop (stop : Bool) (sv : Servo) (targets starts : List (Nat × Int))
    (steps : Nat) : Servo × List Ev :=
  (List.range (steps + 1)).foldl (stepFun stop targets starts steps) (sv, [])

/-- The step count of one frame:
`duration = frame.get("duration", 500) / 1000.0`;
`steps = max(1, int(duration / DELAY))`. -/
def frameStepsNat (f : Keyframe) : Nat :=
  (max 1 (Frac.div (Frac.div (Frac.ofInt (f.duration.getD 500)) (Frac.ofInt 1000))
    DELAY).trunc).toNat

/-- The fresh start snapshot of one frame:
`starts = {ch: self.servo.get_position(ch) for ch in targets}`. -/
def frameStarts (sv : Servo) (f : Keyframe) : List (Nat × Int) :=
  f.servos.map (fun ct => (ct.1, getPosition sv ct.1))

/-- One frame of `play_keyframes`: duration (ms, default 500) to seconds,
`steps = max(1, int(duration / DELAY))`, fresh start positions from
`get_position` for the channels this frame targets, then the step loop. -/
def runFrame (stop : Bool) (sv : Servo) (f : Keyframe) : Servo × List Ev :=
  stepsLoop stop sv f.servos (frameStarts sv f) (frameStepsNat f)

/-- One iteration of the frame loop: check the stop flag, then run the
frame from the current servo state. -/
def frameFun (stop : Bool) (acc : Servo × List Ev) (f : Keyframe) :
    Servo × List Ev :=
  if stop then acc
  else
    let r := runFrame stop acc.1 f
    (r.1, acc.2 ++ r.2)

/-- The frame loop of `play_keyframes`, checking the stop flag before
each frame. -/
def keyframesLoop (stop : Bool) (sv : Servo) (frames : List Keyframe) :
    Servo × List Ev :=
  frames.foldl (frameFun stop) (sv, [])

/-- The `try`-block body of `play_keyframes`: the audio handshake
(`latency >= 0`: blocking `play(wait_for_start=True)` then sleep the
offset; `latency < 0`: schedule a deferred audio start on a timer),
followed by the frame loop. -/
def keyframesBody (frames : List Keyframe) (withAudio : Bool) (s : Anim) :
    SessionOut :=
  match s.audio with
  | some a =>
      if withAudio && a.hasTrack then
        let latency := getLatencyOffsetSec a
        if Frac.ble (Frac.ofInt 0) latency then
          let pa := audioPlay true a
          let evs1 := [Ev.audioPlay true] ++
            (if Frac.blt (Frac.ofInt 0) latency then [Ev.sleep latency] else [])
          let s1 : Anim := { s with audio := some pa.2 }
          let r := keyframesLoop s1.stopRequested s1.servo frames
          { result := some true, state := { s1 with servo := r.1 },
            events := evs1 ++ r.2, deferred := none }
        else
          let r := keyframesLoop s.stopRequested s.servo frames
          { result := some true, state := { s with servo := r.1 },
            events := r.2, deferred := some (Frac.fabs latency) }
      else
        let r := keyframesLoop s.stopRequested s.servo frames
        { result := some true, state := { s with servo := r.1 },
          events := r.2, deferred := none }
  | none =>
      let r := keyframesLoop s.stopRequested s.servo frames
      { result := some true, state := { s with servo := r.1 },
        events := r.2, deferred := none }

/-- `Animator.play_keyframes`: the claim/release wrapper around the
keyframe body. -/
def playKeyframes (frames : List Keyframe) (withAudio : Bool) (s : Anim) :
    SessionOut :=
  runSession (keyframesBody frames withAudio) s

/-- Python `range(start, stop, step)` for a nonzero step. -/
def pyRange (start stop step : Int) : List Int :=
  if 0 < step then
    (List.range (((stop - start).toNat + (step.toNat - 1)) / step.toNat)).map
      (fun i => start + step * (i : Int))
  else if step < 0 then
    (List.range (((start - stop).toNat + ((-step).toNat - 1)) / (-step).toNat)).map
      (fun i => start + step * (i : Int))
  else []

/-- `Animator.sweep_servo`: walk the pulse range in `STEP` increments,
checking the stop flag before each write, sleeping `DELAY` after each. -/
def sweepServo (stop : Bool) (sv : Servo) (ch : Nat) (a b step : Int) :
    Servo × List Ev :=
  let positions := if a < b then pyRange a (b + 1) step else pyRange a (b - 1) (-step)
  positions.foldl (fun acc p =>
    if stop then acc
    else ((setPosition acc.1 ch p).2, acc.2 ++ [Ev.setPos ch p, Ev.sleep DELAY]))
    (sv, [])

/-- The `try`-block body of `play_preset`: sweep channel 0 center→max→center,
pause half a second, sweep channel 1 center→min→center. -/
def presetBody (s : Anim) : SessionOut :=
  let stop := s.stopRequested
  let r1 := sweepServo stop s.servo 0 CENTER_PULSE MAX_PULSE STEP
  let r2 := sweepServo stop r1.1 0 MAX_PULSE CENTER_PULSE STEP
  let evMid : List Ev := if stop then [] else [Ev.sleep ⟨1, 2⟩]
  let r3 := sweepServo stop r2.1 1 CENTER_PULSE MIN_PULSE STEP
  let r4 := sweepServo stop r3.1 1 MIN_PULSE CENTER_PULSE STEP
  { result := some true, state := { s with servo := r4.1 },
    events := r1.2 ++ r2.2 ++ evMid ++ r3.2 ++ r4.2, deferred := none }

/-- `Animator.play_preset`: the claim/release wrapper around the preset
body. -/
def playPreset (s : Anim) : SessionOut :=
  runSession presetBody s

/-- `Animator.stop`: set `_stop_requested` and stop audio playback if an
audio player is attached. -/
def animStop (s : Anim) : Anim :=
  { s with stopRequested := true, audio := s.audio.map audioStop }

/-- The deferred-audio timer body of `play_keyframes`
(`delayed_audio`): when the timer fires, issue
`play(wait_for_start=False)` only if no stop was requested. -/
def delayedAudioFire (s : Anim) : Anim × List Ev :=
  if s.stopRequested then (s, [])
  else
    match s.audio with
    | some a => ({ s with audio := some (audioPlay false a).2 }, [Ev.audioPlay false])
    | none => (s, [])

/-- Python `range(0, stop, step)` over naturals for a positive step. -/
def pyRangeNat (stop step : Nat) : List Nat :=
  (List.range ((stop + step - 1) / step)).map (fun i => i * step)

/-- The sample grid of `play_saved_animation`
(`range(0, animation.duration_ms + 1, 50)`). -/
def sampleTimes (durationMs : Nat) : List Nat :=
  pyRangeNat (durationMs + 1) 50

/-- The keyframe-generation loop of `play_saved_animation`
(`droidrig/web/app.py`): sample every curve on the 50 ms grid with the
global `CENTER_PULSE` as default, each sample becoming a 50 ms frame. -/
def sampleAnimation (curves : List (Nat × List Point)) (durationMs : Nat) :
    List Keyframe :=
  (sampleTimes durationMs).map (fun (t : Nat) =>
    { duration := some 50,
      servos := curves.map (fun cp => (cp.1, getValueAtTime cp.2 (t : Int) CENTER_PULSE)) })

/-- The progress fraction of step `n` of `steps`: `t = step_num / steps`. -/
def tFrac (n steps : Nat) : Frac :=
  Frac.div (Frac.ofInt (n : Int)) (Frac.ofInt (steps : Int))

/-- The pulse the keyframe loop commands for target `ct` at progress `t`,
starting from the snapshot `st`. -/
def posOf (st : List (Nat × Int)) (t : Frac) (ct : Nat × Int) : Int :=
  clampPulse ((Frac.add (Frac.ofInt ((alGet st ct.1).getD CENTER_PULSE))
    (Frac.mul (Frac.sub (Frac.ofInt ct.2) (Frac.ofInt ((alGet st ct.1).getD CENTER_PULSE)))
      t)).trunc)

/-- The actuator writes one pass over the targets emits. -/
def targetEvents (st : List (Nat × Int)) (t : Frac) (tg : List (Nat × Int)) :
    List Ev :=
  tg.map (fun ct => Ev.setPos ct.1 (posOf st t ct))

/-- The `(channel, pulse)` pairs passed to `set_position`, in order, of an
event trace. -/
def setPosList (evs : List Ev) : List (Nat × Int) :=
  evs.filterMap (fun e =>
    match e with
    | Ev.setPos ch p => some (ch, p)
    | _ => none)

/-- The step count of a frame as the (amended) specification words it:
`max(1, int(duration_ms / step_interval_ms))` with truncating division on
the exact value. -/
def specSteps (f : Keyframe) : Nat :=
  (max 1 (pyInt ((f.duration.getD 500 : ℚ) / 20))).toNat

/-- The per-frame command sequence as the (amended) specification words
it: for `step_num` in `0..=steps` and each targeted channel in order,
`pos = int(starts[channel] + (target - starts[channel]) * step_num/steps)`
clamped to `[MIN_PULSE, MAX_PULSE]`, where `starts[channel]` is read
fresh from `get_position` at the start of the frame. -/
def specFramePositions (sv : Servo) (f : Keyframe) : List (Nat × Int) :=
  ((List.range (specSteps f + 1)).map (fun (n : Nat) =>
    f.servos.map (fun ct =>
      (ct.1, clampPulse (pyInt ((getPosition sv ct.1 : ℚ) +
        ((ct.2 : ℚ) - (getPosition sv ct.1 : ℚ)) *
          ((n : ℚ) / (specSteps f : ℚ)))))))).flatten

/-- The full command sequence of a keyframe run as the (amended)
specification words it: frame after frame, each frame computed from the
actuator state the previous frame left behind. -/
def specRun : Servo → List Keyframe → List (Nat × Int)
  | _, [] => []
  | sv, f :: fs => specFramePositions sv f ++ specRun (runFrame false sv f).1 fs

namespace Frac

theorem val_mk (n d : Int) : (Frac.mk n d).val = (n : ℚ) / (d : ℚ) := rfl

theorem val_ofInt (i : Int) : (ofInt i).val = (i : ℚ) := by
  simp [ofInt, val]

end Frac

theorem fdiv_eq_floor (n d : Int) (h : 0 < d) :
    Int.fdiv n d = ⌊(n : ℚ) / (d : ℚ)⌋ := by
  have hd : (d : ℚ) = ((d.toNat : ℕ) : ℚ) := by
    exact_mod_cast congrArg (Int.cast : Int → ℚ) (Int.toNat_of_nonneg h.le).symm
  rw [hd, Rat.floor_intCast_div_natCast, Int.toNat_of_nonneg h.le,
    Int.fdiv_eq_ediv _ h.le]

theorem tdiv_eq_pyInt (n d : Int) (h : 0 < d) :
    Int.tdiv n d = pyInt ((n : ℚ) / (d : ℚ)) := by
  have hdq : (0 : ℚ) < (d : ℚ) := by exact_mod_cast h
  rcases le_or_lt 0 n with hn | hn
  · have hq : (0 : ℚ) ≤ (n : ℚ) / (d : ℚ) :=
      div_nonneg (by exact_mod_cast hn) hdq.le
    rw [pyInt, if_pos hq, ← fdiv_eq_floor n d h, Int.fdiv_eq_ediv _ h.le,
      Int.tdiv_eq_ediv hn h.le]
  · have hq : ¬(0 : ℚ) ≤ (n : ℚ) / (d : ℚ) := by
      rw [not_le]
      exact div_neg_of_neg_of_pos (by exact_mod_cast hn) hdq
    have hceil : ⌈(n : ℚ) / (d : ℚ)⌉ = -⌊-((n : ℚ) / (d : ℚ))⌋ := by
      rw [Int.floor_neg, neg_neg]
    rw [pyInt, if_neg hq, hceil]
    have hneg : -((n : ℚ) / (d : ℚ)) = ((-n : Int) : ℚ) / (d : ℚ) := by
      push_cast
      ring
    rw [hneg, ← fdiv_eq_floor (-n) d h, Int.fdiv_eq_ediv _ h.le]
    have htd : Int.tdiv n d = -Int.tdiv (-n) d := by
      rw [Int.neg_tdiv, neg_neg]
    rw [htd, Int.tdiv_eq_ediv (by omega) h.le]

theorem trunc_eq_pyInt (f : Frac) (h : 0 < f.d) :
    f.trunc = pyInt f.val := tdiv_eq_pyInt f.n f.d h

theorem round_eq_pyRound (f : Frac) (h : 0 < f.d) :
    f.round = pyRound f.val := by
  have hdq : (0 : ℚ) < (f.d : ℚ) := by exact_mod_cast h
  have hfl : Int.fdiv f.n f.d = ⌊f.val⌋ := fdiv_eq_floor f.n f.d h
  have hfrac : f.val - (⌊f.val⌋ : ℚ) =
      ((f.n - ⌊f.val⌋ * f.d : Int) : ℚ) / (f.d : ℚ) := by
    rw [Frac.val]
    push_cast
    field_simp
    ring
  have hcmp1 : (f.val - (⌊f.val⌋ : ℚ) < 1/2) ↔
      (2 * (f.n - ⌊f.val⌋ * f.d) < f.d) := by
    rw [hfrac, div_lt_div_iff₀ hdq (by norm_num)]
    constructor
    · intro hx
      have hc : ((2 * (f.n - ⌊f.val⌋ * f.d) : Int) : ℚ) < ((f.d : Int) : ℚ) := by
        push_cast at hx ⊢
        linarith
      exact_mod_cast hc
    · intro hx
      have hc : ((2 * (f.n - ⌊f.val⌋ * f.d) : Int) : ℚ) < ((f.d : Int) : ℚ) := by
        exact_mod_cast hx
      push_cast at hc ⊢
      linarith
  have hcmp2 : ((1:ℚ)/2 < f.val - (⌊f.val⌋ : ℚ)) ↔
      (f.d < 2 * (f.n - ⌊f.val⌋ * f.d)) := by
    rw [hfrac, div_lt_div_iff₀ (by norm_num) hdq]
    constructor
    · intro hx
      have hc : ((f.d : Int) : ℚ) < ((2 * (f.n - ⌊f.val⌋ * f.d) : Int) : ℚ) := by
        push_cast at hx ⊢
        linarith
      exact_mod_cast hc
    · intro hx
      have hc : ((f.d : Int) : ℚ) < ((2 * (f.n - ⌊f.val⌋ * f.d) : Int) : ℚ) := by
        exact_mod_cast hx
      push_cast at hc ⊢
      linarith
  simp only [Frac.round, pyRound, hfl]
  by_cases h1 : f.val - (⌊f.val⌋ : ℚ) < 1/2
  · rw [if_pos (hcmp1.mp h1), if_pos h1]
  · rw [if_neg (fun hx => h1 (hcmp1.mpr hx)), if_neg h1]
    by_cases h2 : (1:ℚ)/2 < f.val - (⌊f.val⌋ : ℚ)
    · rw [if_pos (hcmp2.mp h2), if_pos h2]
    · rw [if_neg (fun hx => h2 (hcmp2.mpr hx)), if_neg h2]

theorem blt_iff (f g : Frac) (hf : 0 < f.d) (hg : 0 < g.d) :
    f.blt g = true ↔ f.val < g.val := by
  have hfq : (0 : ℚ) < (f.d : ℚ) := by exact_mod_cast hf
  have hgq : (0 : ℚ) < (g.d : ℚ) := by exact_mod_cast hg
  rw [Frac.blt, decide_eq_true_eq, Frac.val, Frac.val,
    div_lt_div_iff₀ hfq hgq]
  constructor
  · intro hx
    exact_mod_cast hx
  · intro hx
    exact_mod_cast hx

theorem ble_iff (f g : Frac) (hf : 0 < f.d) (hg : 0 < g.d) :
    f.ble g = true ↔ f.val ≤ g.val := by
  have hfq : (0 : ℚ) < (f.d : ℚ) := by exact_mod_cast hf
  have hgq : (0 : ℚ) < (g.d : ℚ) := by exact_mod_cast hg
  rw [Frac.ble, decide_eq_true_eq, Frac.val, Frac.val,
    div_le_div_iff₀ hfq hgq]
  constructor
  · intro hx
    exact_mod_cast hx
  · intro hx
    exact_mod_cast hx

theorem optOr_none_right {α : Type} (x : Option α) : optOr x none = x := by
  cases x <;> rfl

theorem optOr_none_left {α : Type} (x : Option α) : optOr none x = x := rfl

theorem getLast?_cons (p : Point) (l : List Point) :
    (p :: l).getLast? = optOr l.getLast? (some p) := by
  induction l with
  | nil => rfl
  | cons q r _ =>
      rw [List.getLast?_cons_cons]
      cases h : (q :: r).getLast? with
      | none => simp [List.getLast?_eq_none_iff] at h
      | some _ => rfl

theorem scan_fst (t : Int) (pts : List Point) (b0 a0 : Option Point) :
    (pts.foldl (scanStep t) (b0, a0)).1 =
      optOr ((pts.filter (fun p => decide (p.time ≤ t))).getLast?) b0 := by
  induction pts generalizing b0 a0 with
  | nil => rfl
  | cons p rest ih =>
      by_cases hp : p.time ≤ t
      · rw [List.foldl_cons]
        have hstep : scanStep t (b0, a0) p = (some p, a0) := by
          simp [scanStep, hp]
        rw [hstep, ih, List.filter_cons_of_pos (by simp [hp]), getLast?_cons]
        cases hfl : (rest.filter (fun p => decide (p.time ≤ t))).getLast? <;> rfl
      · rw [List.foldl_cons]
        rw [List.filter_cons_of_neg (by simp [hp])]
        cases a0 with
        | none =>
            have hs : scanStep t (b0, none) p = (b0, some p) := by
              simp [scanStep, hp]
            rw [hs, ih]
        | some x =>
            have hs : scanStep t (b0, some x) p = (b0, some x) := by
              simp [scanStep, hp]
            rw [hs, ih]

theorem scan_snd (t : Int) (pts : List Point) (b0 a0 : Option Point) :
    (pts.foldl (scanStep t) (b0, a0)).2 =
      optOr a0 (pts.find? (fun p => decide (t < p.time))) := by
  induction pts generalizing b0 a0 with
  | nil => cases a0 <;> rfl
  | cons p rest ih =>
      by_cases hp : p.time ≤ t
      · rw [List.foldl_cons]
        have hstep : scanStep t (b0, a0) p = (some p, a0) := by
          simp [scanStep, hp]
        have hfind : (p :: rest).find? (fun p => decide (t < p.time)) =
            rest.find? (fun p => decide (t < p.time)) := by
          rw [List.find?_cons_of_neg]
          simp [not_lt.mpr hp]
        rw [hstep, ih, hfind]
      · have hlt : t < p.time := lt_of_not_ge hp
        have hfind : (p :: rest).find? (fun p => decide (t < p.time)) = some p := by
          rw [List.find?_cons_of_pos]
          simp [hlt]
        rw [List.foldl_cons, hfind]
        cases a0 with
        | none =>
            have hs : scanStep t (b0, none) p = (b0, some p) := by
              simp [scanStep, hp]
            rw [hs, ih]
            rfl
        | some x =>
            have hs : scanStep t (b0, some x) p = (b0, some x) := by
              simp [scanStep, hp]
            rw [hs, ih]
            rfl

/-- The scan of `_get_value_at_time` computes exactly (`before`, `after`) =
(last point with `time ≤ t`, first point with `time > t`). -/
theorem getValueAtTime_eq (pts : List Point) (t d : Int) :
    getValueAtTime pts t d =
      match lastLe pts t, firstGt pts t with
      | none, none => d
      | none, some a => a.pulse
      | some b, none => b.pulse
      | some b, some a =>
          (Frac.add (Frac.ofInt b.pulse)
            (Frac.mul (Frac.sub (Frac.ofInt a.pulse) (Frac.ofInt b.pulse))
              (Frac.div (Frac.sub (Frac.ofInt t) (Frac.ofInt b.time))
                (Frac.sub (Frac.ofInt a.time) (Frac.ofInt b.time))))).round := by
  unfold getValueAtTime lastLe firstGt
  cases hpts : pts with
  | nil => rfl
  | cons p rest =>
      have h1 := scan_fst t (p :: rest) none none
      have h2 := scan_snd t (p :: rest) none none
      simp only [List.isEmpty_cons, Bool.false_eq_true, if_false]
      rw [show ((p :: rest).foldl (scanStep t) (none, none)) =
            (((p :: rest).foldl (scanStep t) (none, none)).1,
             ((p :: rest).foldl (scanStep t) (none, none)).2) from rfl,
          h1, h2, optOr_none_right, optOr_none_left]
      cases ((p :: rest).filter (fun p => decide (p.time ≤ t))).getLast? <;>
        cases (p :: rest).find? (fun p => decide (t < p.time)) <;> rfl

/-- C3: whenever the curve has a point with `time ≤ t` and a point with
`time > t`, `value_at` returns
`round(before.pulse + (after.pulse - before.pulse) * (t - before.time) / (after.time - before.time))`,
where `before` is the last scanned point with `time ≤ t` and `after` the
first with `time > t`; the division is well-defined because
`after.time > t ≥ before.time`, and the curve
`[{time:0,pulse:1000},{time:1000,pulse:2000}]` queried at `t = 500` yields
exactly `1500`. -/
theorem c3_linear_interpolation (pts : List Point) (t d : Int) (b a : Point)
    (hb : lastLe pts t = some b) (ha : firstGt pts t = some a) :
    getValueAtTime pts t d =
      pyRound ((b.pulse : ℚ) +
        ((a.pulse : ℚ) - (b.pulse : ℚ)) * ((t : ℚ) - (b.time : ℚ)) /
          ((a.time : ℚ) - (b.time : ℚ)))
    ∧ b.time ≤ t ∧ t < a.time
    ∧ getValueAtTime [⟨0, 1000⟩, ⟨1000, 2000⟩] 500 d = 1500 := by
  have hble : b.time ≤ t := by
    have hmem : b ∈ pts.filter (fun p => decide (p.time ≤ t)) :=
      List.mem_of_getLast?_eq_some hb
    exact of_decide_eq_true (List.mem_filter.mp hmem).2
  have halt : t < a.time := by
    have ha' : pts.find? (fun p => decide (t < p.time)) = some a := ha
    have hpa := List.find?_some (p := fun q : Point => decide (t < q.time)) ha'
    exact of_decide_eq_true hpa
  refine ⟨?_, hble, halt, ?_⟩
  · have h : getValueAtTime pts t d =
        (Frac.add (Frac.ofInt b.pulse)
          (Frac.mul (Frac.sub (Frac.ofInt a.pulse) (Frac.ofInt b.pulse))
            (Frac.div (Frac.sub (Frac.ofInt t) (Frac.ofInt b.time))
              (Frac.sub (Frac.ofInt a.time) (Frac.ofInt b.time))))).round := by
      have h0 := getValueAtTime_eq pts t d
      rw [hb, ha] at h0
      exact h0
    rw [h]
    have hD : 0 < (Frac.add (Frac.ofInt b.pulse)
        (Frac.mul (Frac.sub (Frac.ofInt a.pulse) (Frac.ofInt b.pulse))
          (Frac.div (Frac.sub (Frac.ofInt t) (Frac.ofInt b.time))
            (Frac.sub (Frac.ofInt a.time) (Frac.ofInt b.time))))).d := by
      simp [Frac.add, Frac.mul, Frac.div, Frac.sub, Frac.ofInt]
      omega
    rw [round_eq_pyRound _ hD]
    congr 1
    have hne : ((a.time : ℚ) - (b.time : ℚ)) ≠ 0 := by
      have hlt : (b.time : ℚ) < (a.time : ℚ) := by
        exact_mod_cast lt_of_le_of_lt hble halt
      linarith
    simp only [Frac.val, Frac.add, Frac.mul, Frac.div, Frac.sub, Frac.ofInt]
    push_cast
    field_simp
  · have hd2 : getValueAtTime [⟨0, 1000⟩, ⟨1000, 2000⟩] 500 d
        = getValueAtTime [⟨0, 1000⟩, ⟨1000, 2000⟩] 500 0 := rfl
    rw [hd2]
    decide

/-- C3 witness: the interpolation statement instantiated on scenario A,
the curve `[{0,1000},{1000,2000}]` queried at `t = 500`. -/
theorem c3_witness :
    getValueAtTime [⟨0, 1000⟩, ⟨1000, 2000⟩] 500 7 =
      pyRound ((1000 : ℚ) +
        ((2000 : ℚ) - (1000 : ℚ)) * ((500 : ℚ) - (0 : ℚ)) /
          ((1000 : ℚ) - (0 : ℚ)))
    ∧ (0 : Int) ≤ 500 ∧ (500 : Int) < 1000
    ∧ getValueAtTime [⟨0, 1000⟩, ⟨1000, 2000⟩] 500 7 = 1500 :=
  c3_linear_interpolation [⟨0, 1000⟩, ⟨1000, 2000⟩] 500 7 ⟨0, 1000⟩ ⟨1000, 2000⟩
    (by decide) (by decide)

/-- C7: `value_at` is total on all edge cases: the empty curve returns the
default; if every point has `time ≤ t` the last point's pulse is returned
(hold last); if every point has `time > t` the first point's pulse is
returned (hold first backward); the single-point curve `[{0,1000}]`
queried at `t = 9999` yields `1000`. -/
theorem c7_edge_cases (pts : List Point) (t d : Int) (hne : pts ≠ []) :
    getValueAtTime [] t d = d
    ∧ ((∀ p ∈ pts, p.time ≤ t) →
        getValueAtTime pts t d = (pts.getLast hne).pulse)
    ∧ ((∀ p ∈ pts, t < p.time) →
        getValueAtTime pts t d = (pts.head hne).pulse)
    ∧ getValueAtTime [⟨0, 1000⟩] 9999 d = 1000 := by
  refine ⟨rfl, ?_, ?_, rfl⟩
  · intro hall
    have h := getValueAtTime_eq pts t d
    have hfil : pts.filter (fun p => decide (p.time ≤ t)) = pts :=
      List.filter_eq_self.mpr (fun p hp => decide_eq_true (hall p hp))
    have hfind : pts.find? (fun p => decide (t < p.time)) = none :=
      List.find?_eq_none.mpr
        (fun p hp => by simp [not_lt.mpr (hall p hp)])
    rw [lastLe, hfil, List.getLast?_eq_getLast pts hne, firstGt, hfind] at h
    exact h
  · intro hall
    have h := getValueAtTime_eq pts t d
    have hfil : pts.filter (fun p => decide (p.time ≤ t)) = [] := by
      rw [List.filter_eq_nil_iff]
      intro p hp
      simp [not_le.mpr (hall p hp)]
    cases pts with
    | nil => exact absurd rfl hne
    | cons q rest =>
        have hfind : (q :: rest).find? (fun p => decide (t < p.time)) = some q := by
          rw [List.find?_cons_of_pos]
          exact decide_eq_true (hall q (List.mem_cons_self q rest))
        rw [lastLe, hfil, firstGt, hfind] at h
        exact h

/-- C7 witness: the edge-case statement instantiated on scenario B, the
single-point curve `[{0,1000}]` queried at `t = 9999`. -/
theorem c7_witness :
    getValueAtTime [] 9999 42 = 42
    ∧ ((∀ p ∈ [Point.mk 0 1000], p.time ≤ 9999) →
        getValueAtTime [⟨0, 1000⟩] 9999 42 =
          (([Point.mk 0 1000]).getLast (by decide)).pulse)
    ∧ ((∀ p ∈ [Point.mk 0 1000], 9999 < p.time) →
        getValueAtTime [⟨0, 1000⟩] 9999 42 =
          (([Point.mk 0 1000]).head (by decide)).pulse)
    ∧ getValueAtTime [⟨0, 1000⟩] 9999 42 = 1000 :=
  c7_edge_cases [⟨0, 1000⟩] 9999 42 (by decide)

/-- C1: a start request (`play_preset` or `play_keyframes`) made while a
session is already active returns the Busy outcome `False` with zero side
effects: no actuator write, no audio start, and the running session's
stop flag and position snapshot (the whole shared state) unchanged. -/
theorem c1_busy_no_side_effects (frames : List Keyframe) (w : Bool) (s : Anim)
    (h : s.isAnimating = true) :
    playKeyframes frames w s =
      { result := some false, state := s, events := [], deferred := none }
    ∧ playPreset s =
      { result := some false, state := s, events := [], deferred := none } := by
  constructor <;> simp [playKeyframes, playPreset, runSession, h]

/-- C1 witness: a busy start request on a concrete active state. -/
theorem c1_witness :
    playKeyframes [⟨some 40, [(0, 1003)]⟩] true ⟨true, false, ⟨[], [(0, 1000)]⟩, none⟩ =
      { result := some false, state := ⟨true, false, ⟨[], [(0, 1000)]⟩, none⟩,
        events := [], deferred := none }
    ∧ playPreset ⟨true, false, ⟨[], [(0, 1000)]⟩, none⟩ =
      { result := some false, state := ⟨true, false, ⟨[], [(0, 1000)]⟩, none⟩,
        events := [], deferred := none } :=
  c1_busy_no_side_effects [⟨some 40, [(0, 1003)]⟩] true
    ⟨true, false, ⟨[], [(0, 1000)]⟩, none⟩ rfl

/-- C2: an invocation that successfully claims the session clears the
active flag on every exit path — for the concrete bodies of
`play_preset` and `play_keyframes`, and for an arbitrary `try`-block
body, including one that models an exception propagating out
(`result = none`) — so the system is never left permanently busy. -/
theorem c2_flag_always_released (frames : List Keyframe) (w : Bool) (s : Anim)
    (h : s.isAnimating = false) :
    (∀ body : Anim → SessionOut, (runSession body s).state.isAnimating = false)
    ∧ (playKeyframes frames w s).state.isAnimating = false
    ∧ (playPreset s).state.isAnimating = false := by
  refine ⟨fun body => ?_, ?_, ?_⟩ <;>
    simp [playKeyframes, playPreset, runSession, h]

/-- C2 witness: the release discipline on a concrete idle state, with a
body that raises (models an exception) as the arbitrary-body instance. -/
theorem c2_witness :
    (runSession (fun st => ⟨none, st, [], none⟩)
      ⟨false, false, ⟨[], []⟩, none⟩).state.isAnimating = false
    ∧ (playKeyframes [] true ⟨false, false, ⟨[], []⟩, none⟩).state.isAnimating = false
    ∧ (playPreset ⟨false, false, ⟨[], []⟩, none⟩).state.isAnimating = false :=
  ⟨(c2_flag_always_released [] true ⟨false, false, ⟨[], []⟩, none⟩ rfl).1
      (fun st => ⟨none, st, [], none⟩),
   (c2_flag_always_released [] true ⟨false, false, ⟨[], []⟩, none⟩ rfl).2.1,
   (c2_flag_always_released [] true ⟨false, false, ⟨[], []⟩, none⟩ rfl).2.2⟩

/-- C8 counterexample: calling stop while no session is active is *not* a
no-op on observable state.  After a keyframe session with audio completes
(a reachable state: `play_keyframes` returns with the audio still
playing), `is_animating` is false, and a stop call terminates the
in-flight audio playback — an observable state change. -/
theorem c8_counterexample :
    (playKeyframes [] true
        ⟨false, false, ⟨[], []⟩, some ⟨true, true, false, false, 0, 150⟩⟩).state =
      ⟨false, false, ⟨[], []⟩, some ⟨true, true, true, true, 1, 150⟩⟩
    ∧ (animStop ⟨false, false, ⟨[], []⟩, some ⟨true, true, true, true, 1, 150⟩⟩).audio =
        some ⟨true, true, false, false, 1, 150⟩
    ∧ animStop ⟨false, false, ⟨[], []⟩, some ⟨true, true, true, true, 1, 150⟩⟩ ≠
        ⟨false, false, ⟨[], []⟩, some ⟨true, true, true, true, 1, 150⟩⟩ := by
  refine ⟨by decide, by decide, by decide⟩

/-- C8 (amended): stop is idempotent — any number of stop calls has
exactly the effect of one — and a stop call's entire effect is to set the
stop flag and stop any in-flight audio playback; it never touches
`is_animating` or the actuator state, so while idle it changes nothing
except the stop flag and the audio player. -/
theorem c8_stop_idempotent (s : Anim) :
    animStop (animStop s) = animStop s
    ∧ (animStop s).isAnimating = s.isAnimating
    ∧ (animStop s).servo = s.servo
    ∧ (animStop s).stopRequested = true
    ∧ (animStop s).audio = s.audio.map audioStop := by
  refine ⟨?_, rfl, rfl, rfl, rfl⟩
  cases s with
  | mk ia sr sv au =>
      cases au <;> simp [animStop, audioStop]

/-- C10: `AudioPlayer.play` returns `False` and spawns no process when no
track is selected, when the file is gone from disk, or when a playback is
already in progress; consequently two back-to-back play calls can never
both succeed, and never spawn more than one process in total. -/
theorem c10_audio_play_guard (a : Audio) (w w1 w2 : Bool) :
    ((a.hasTrack = false ∨ a.fileExists = false ∨ a.isPlaying = true) →
      audioPlay w a = (false, a))
    ∧ ((audioPlay w1 a).1 = true → (audioPlay w2 (audioPlay w1 a).2).1 = false)
    ∧ (audioPlay w2 (audioPlay w1 a).2).2.spawned ≤ a.spawned + 1 := by
  cases a with
  | mk htr hex hpl hlv hsp hofs =>
      cases htr <;> cases hex <;> cases hpl <;> simp [audioPlay]

/-- C10 witness: the guard behaviour on concrete audio states — refused
while already playing, and a second overlapping call refused after a
successful first call, with at most one process spawned. -/
theorem c10_witness :
    audioPlay true ⟨true, true, true, false, 5, 0⟩ =
      (false, ⟨true, true, true, false, 5, 0⟩)
    ∧ ((audioPlay true ⟨true, true, false, false, 5, 0⟩).1 = true →
        (audioPlay false (audioPlay true ⟨true, true, false, false, 5, 0⟩).2).1 = false)
    ∧ (audioPlay false (audioPlay true ⟨true, true, false, false, 5, 0⟩).2).2.spawned ≤ 5 + 1 :=
  ⟨(c10_audio_play_guard ⟨true, true, true, false, 5, 0⟩ true true false).1
      (Or.inr (Or.inr rfl)),
   (c10_audio_play_guard ⟨true, true, false, false, 5, 0⟩ true true false).2.1,
   (c10_audio_play_guard ⟨true, true, false, false, 5, 0⟩ true true false).2.2⟩


theorem clampPulse_bounds (p : Int) :
    MIN_PULSE ≤ clampPulse p ∧ clampPulse p ≤ MAX_PULSE := by
  constructor
  · exact le_max_left _ _
  · exact max_le (by norm_num [MIN_PULSE, MAX_PULSE]) (min_le_left _ _)

theorem applyTargetStep_snd (st : List (Nat × Int)) (t : Frac)
    (acc : Servo × List Ev) (ct : Nat × Int) :
    (applyTargetStep st t acc ct).2 = acc.2 ++ [Ev.setPos ct.1 (posOf st t ct)] := rfl

theorem applyTargets_fold_events (st : List (Nat × Int)) (t : Frac) :
    ∀ (tg : List (Nat × Int)) (acc : Servo × List Ev),
      (tg.foldl (applyTargetStep st t) acc).2 = acc.2 ++ targetEvents st t tg := by
  intro tg
  induction tg with
  | nil => intro acc; simp [targetEvents]
  | cons ct rest ih =>
      intro acc
      rw [List.foldl_cons, ih, applyTargetStep_snd]
      simp [targetEvents]

theorem applyTargets_snd (sv : Servo) (tg st : List (Nat × Int)) (t : Frac) :
    (applyTargets sv tg st t).2 = targetEvents st t tg := by
  rw [applyTargets, applyTargets_fold_events]
  rfl

theorem stepFun_snd (tg st : List (Nat × Int)) (steps : Nat)
    (acc : Servo × List Ev) (n : Nat) :
    (stepFun false tg st steps acc n).2 =
      acc.2 ++ (targetEvents st (tFrac n steps) tg ++ [Ev.sleep DELAY]) := by
  simp only [stepFun, Bool.false_eq_true, if_false]
  rw [applyTargets_snd]
  simp [tFrac, List.append_assoc]

theorem steps_fold_events (tg st : List (Nat × Int)) (steps : Nat) :
    ∀ (ns : List Nat) (acc : Servo × List Ev),
      (ns.foldl (stepFun false tg st steps) acc).2 =
        acc.2 ++ (ns.map (fun n =>
          targetEvents st (tFrac n steps) tg ++ [Ev.sleep DELAY])).flatten := by
  intro ns
  induction ns with
  | nil => intro acc; simp
  | cons n rest ih =>
      intro acc
      rw [List.foldl_cons, ih]
      simp only [List.map_cons, List.flatten_cons]
      rw [stepFun_snd]
      simp [List.append_assoc]

theorem stepsLoop_snd (sv : Servo) (tg st : List (Nat × Int)) (steps : Nat) :
    (stepsLoop false sv tg st steps).2 =
      ((List.range (steps + 1)).map (fun n =>
        targetEvents st (tFrac n steps) tg ++ [Ev.sleep DELAY])).flatten := by
  rw [stepsLoop, steps_fold_events]
  rfl

theorem runFrame_snd (sv : Servo) (f : Keyframe) :
    (runFrame false sv f).2 =
      ((List.range (frameStepsNat f + 1)).map (fun n =>
        targetEvents (frameStarts sv f) (tFrac n (frameStepsNat f)) f.servos ++
          [Ev.sleep DELAY])).flatten := by
  rw [runFrame, stepsLoop_snd]

theorem frames_fold_shift :
    ∀ (fs : List Keyframe) (sv : Servo) (evs : List Ev),
      fs.foldl (frameFun false) (sv, evs) =
        ((fs.foldl (frameFun false) (sv, [])).1,
         evs ++ (fs.foldl (frameFun false) (sv, [])).2) := by
  intro fs
  induction fs with
  | nil => intro sv evs; simp
  | cons f rest ih =>
      intro sv evs
      rw [List.foldl_cons, List.foldl_cons]
      simp only [frameFun, Bool.false_eq_true, if_false]
      rw [ih (runFrame false sv f).1 (evs ++ (runFrame false sv f).2),
        ih (runFrame false sv f).1 ([] ++ (runFrame false sv f).2)]
      simp [List.append_assoc]

theorem keyframesLoop_cons (sv : Servo) (f : Keyframe) (fs : List Keyframe) :
    keyframesLoop false sv (f :: fs) =
      ((keyframesLoop false (runFrame false sv f).1 fs).1,
       (runFrame false sv f).2 ++
         (keyframesLoop false (runFrame false sv f).1 fs).2) := by
  rw [keyframesLoop, List.foldl_cons]
  simp only [frameFun, Bool.false_eq_true, if_false]
  rw [frames_fold_shift]
  rfl

theorem keyframesLoop_mem (frames : List Keyframe) :
    ∀ (sv : Servo) (e : Ev), e ∈ (keyframesLoop false sv frames).2 →
      (∃ ch p, e = Ev.setPos ch p ∧ MIN_PULSE ≤ p ∧ p ≤ MAX_PULSE) ∨
        e = Ev.sleep DELAY := by
  induction frames with
  | nil => intro sv e he; simp [keyframesLoop] at he
  | cons f rest ih =>
      intro sv e he
      rw [keyframesLoop_cons] at he
      rcases List.mem_append.mp he with h | h
      · rw [runFrame_snd] at h
        rcases List.mem_flatten.mp h with ⟨l, hl, hel⟩
        rcases List.mem_map.mp hl with ⟨n, _, rfl⟩
        rcases List.mem_append.mp hel with h2 | h2
        · rcases List.mem_map.mp h2 with ⟨ct, _, rfl⟩
          refine Or.inl ⟨ct.1, posOf (frameStarts sv f) (tFrac n (frameStepsNat f)) ct,
            rfl, ?_⟩
          exact clampPulse_bounds _
        · rcases List.mem_singleton.mp h2 with rfl
          exact Or.inr rfl
      · exact ih (runFrame false sv f).1 e h

theorem keyframesBody_events (frames : List Keyframe) (w : Bool) (s : Anim) :
    ∃ pre : List Ev,
      (keyframesBody frames w s).events =
        pre ++ (keyframesLoop s.stopRequested s.servo frames).2
      ∧ (∀ ch p, Ev.setPos ch p ∉ pre) := by
  rcases hau : s.audio with _ | a
  · refine ⟨[], ?_, by simp⟩
    simp [keyframesBody, hau]
  · by_cases hw : (w && a.hasTrack) = true
    · by_cases hble : Frac.ble (Frac.ofInt 0) (getLatencyOffsetSec a) = true
      · by_cases hblt : Frac.blt (Frac.ofInt 0) (getLatencyOffsetSec a) = true
        · refine ⟨[Ev.audioPlay true, Ev.sleep (getLatencyOffsetSec a)], ?_, by simp⟩
          simp [keyframesBody, hau, hw, hble, hblt]
        · refine ⟨[Ev.audioPlay true], ?_, by simp⟩
          simp [keyframesBody, hau, hw, hble, hblt]
      · refine ⟨[], ?_, by simp⟩
        simp [keyframesBody, hau, hw, hble]
    · refine ⟨[], ?_, by simp⟩
      simp [keyframesBody, hau, hw]

theorem keyframesBody_negative (frames : List Keyframe) (s : Anim) (a : Audio)
    (hau : s.audio = some a) (htr : a.hasTrack = true) (hneg : a.offsetMs < 0) :
    keyframesBody frames true s =
      { result := some true,
        state := { s with servo := (keyframesLoop s.stopRequested s.servo frames).1 },
        events := (keyframesLoop s.stopRequested s.servo frames).2,
        deferred := some (Frac.fabs (getLatencyOffsetSec a)) } := by
  have hble : Frac.ble (Frac.ofInt 0) (getLatencyOffsetSec a) = false := by
    simp only [Frac.ble, getLatencyOffsetSec, Frac.div, Frac.ofInt, decide_eq_false_iff_not]
    simp only [not_le]
    nlinarith [hneg]
  simp [keyframesBody, hau, htr, hble]

/-- C6: in a keyframe session with audio and a negative latency offset,
the synchronous path issues no `AudioSyncPort.play` call at all (actuator
stepping begins immediately; the audio start is handed to an independent
timer with delay `|offset|` seconds), and the deferred timer body never
issues the play call if the stop flag is set when it fires. -/
theorem c6_negative_offset (frames : List Keyframe) (s : Anim) (a : Audio)
    (hau : s.audio = some a) (htr : a.hasTrack = true) (hneg : a.offsetMs < 0)
    (hidle : s.isAnimating = false) :
    (playKeyframes frames true s).deferred =
      some (Frac.fabs (getLatencyOffsetSec a))
    ∧ (∀ e ∈ (playKeyframes frames true s).events, ∀ w, e ≠ Ev.audioPlay w)
    ∧ (∀ s' : Anim, s'.stopRequested = true → delayedAudioFire s' = (s', [])) := by
  have hbody := keyframesBody_negative frames
    { s with isAnimating := true, stopRequested := false } a hau htr hneg
  have hrun : playKeyframes frames true s =
      { result := some true,
        state := { s with isAnimating := false, stopRequested := false, servo := (keyframesLoop false s.servo frames).1 },
        events := (keyframesLoop false s.servo frames).2,
        deferred := some (Frac.fabs (getLatencyOffsetSec a)) } := by
    rw [playKeyframes, runSession, if_neg (by rw [hidle]; exact Bool.false_ne_true)]
    rw [hbody]
  refine ⟨by rw [hrun], ?_, ?_⟩
  · intro e he w
    rw [hrun] at he
    rcases keyframesLoop_mem frames s.servo e he with ⟨ch, p, rfl, _⟩ | rfl <;> simp
  · intro s' hstop
    simp [delayedAudioFire, hstop]

/-- C6 witness: the negative-offset behaviour on a concrete session
(offset `-100` ms, one empty frame list), and the timer body on a
concrete stopped state. -/
theorem c6_witness :
    (playKeyframes [] true
        ⟨false, false, ⟨[], []⟩, some ⟨true, true, false, false, 0, -100⟩⟩).deferred =
      some (Frac.fabs (getLatencyOffsetSec ⟨true, true, false, false, 0, -100⟩))
    ∧ delayedAudioFire ⟨false, true, ⟨[], []⟩, some ⟨true, true, false, false, 0, -100⟩⟩ =
        (⟨false, true, ⟨[], []⟩, some ⟨true, true, false, false, 0, -100⟩⟩, []) :=
  ⟨(c6_negative_offset [] ⟨false, false, ⟨[], []⟩, some ⟨true, true, false, false, 0, -100⟩⟩
      ⟨true, true, false, false, 0, -100⟩ rfl rfl (by norm_num) rfl).1,
   (c6_negative_offset [] ⟨false, false, ⟨[], []⟩, some ⟨true, true, false, false, 0, -100⟩⟩
      ⟨true, true, false, false, 0, -100⟩ rfl rfl (by norm_num) rfl).2.2
     ⟨false, true, ⟨[], []⟩, some ⟨true, true, false, false, 0, -100⟩⟩ rfl⟩

/-- C9: every pulse the keyframe stepping loop passes to
`ActuatorPort.set_position` has already been clamped by the scheduler to
the global range `[MIN_PULSE, MAX_PULSE] = [800, 2500]`, for every frame
list, every audio mode and every servo configuration (in particular also
when a channel's own configured limits are wider). -/
theorem c9_keyframe_global_clamp (frames : List Keyframe) (w : Bool) (s : Anim)
    (ch : Nat) (p : Int)
    (hmem : Ev.setPos ch p ∈ (playKeyframes frames w s).events) :
    MIN_PULSE ≤ p ∧ p ≤ MAX_PULSE ∧ MIN_PULSE = 800 ∧ MAX_PULSE = 2500 := by
  have hb : MIN_PULSE ≤ p ∧ p ≤ MAX_PULSE := by
    cases hia : s.isAnimating with
    | true =>
        rw [playKeyframes, runSession, if_pos hia] at hmem
        simp at hmem
    | false =>
        have hmem' : Ev.setPos ch p ∈ (keyframesBody frames w
            { s with isAnimating := true, stopRequested := false }).events := by
          rw [playKeyframes, runSession,
            if_neg (by rw [hia]; exact Bool.false_ne_true)] at hmem
          exact hmem
        rcases keyframesBody_events frames w
            { s with isAnimating := true, stopRequested := false } with ⟨pre, hev, hpre⟩
        rw [hev] at hmem'
        rcases List.mem_append.mp hmem' with h | h
        · exact absurd h (hpre ch p)
        · have h' : Ev.setPos ch p ∈ (keyframesLoop false s.servo frames).2 := h
          rcases keyframesLoop_mem frames s.servo (Ev.setPos ch p) h' with
            ⟨ch', p', heq, h1, h2⟩ | heq
          · simp only [Ev.setPos.injEq] at heq
            obtain ⟨h3, h4⟩ := heq
            subst h4
            exact ⟨h1, h2⟩
          · simp at heq
  exact ⟨hb.1, hb.2, rfl, rfl⟩

/-- C9 witness: a commanded pulse of a concrete keyframe run (with a
channel whose configured limits are wider than the global range) is
within `[800, 2500]`. -/
theorem c9_witness :
    (800 : Int) ≤ 1000 ∧ (1000 : Int) ≤ 2500 ∧ MIN_PULSE = 800 ∧ MAX_PULSE = 2500 := by
  have h := c9_keyframe_global_clamp [⟨some 40, [(0, 1003)]⟩] true
    ⟨false, false, ⟨[(0, ⟨500, 3000, 1000⟩)], []⟩, none⟩ 0 1000 (by decide)
  exact h

theorem alGet_keyMap (g : Nat → Int) :
    ∀ (tg : List (Nat × Int)) (k : Nat), k ∈ tg.map Prod.fst →
      alGet (tg.map (fun ct => (ct.1, g ct.1))) k = some (g k) := by
  intro tg
  induction tg with
  | nil => intro k hk; simp at hk
  | cons hd rest ih =>
      intro k hk
      by_cases hh : hd.1 = k
      · simp [alGet, hh]
      · have hk2 : k = hd.1 ∨ k ∈ rest.map Prod.fst := by
          rw [List.map_cons, List.mem_cons] at hk
          exact hk
        have hk' : k ∈ rest.map Prod.fst := by
          rcases hk2 with h | h
          · exact absurd h.symm hh
          · exact h
        simp [alGet, hh, ih k hk']

theorem frameStepsNat_pos (f : Keyframe) : 1 ≤ frameStepsNat f := by
  rw [frameStepsNat]
  have h := le_max_left 1
    (Frac.div (Frac.div (Frac.ofInt (f.duration.getD 500)) (Frac.ofInt 1000)) DELAY).trunc
  omega

theorem frameSteps_eq_specSteps (f : Keyframe) : frameStepsNat f = specSteps f := by
  rw [frameStepsNat, specSteps]
  congr 2
  rw [trunc_eq_pyInt _ (by norm_num [Frac.div, Frac.ofInt, DELAY])]
  congr 1
  simp only [Frac.val, Frac.div, Frac.ofInt, DELAY]
  push_cast
  rw [div_eq_div_iff (by norm_num) (by norm_num)]
  ring

theorem specSteps_pos (f : Keyframe) : 1 ≤ specSteps f := by
  rw [← frameSteps_eq_specSteps]
  exact frameStepsNat_pos f

theorem posOf_spec (sv : Servo) (f : Keyframe) (n : Nat) (ct : Nat × Int)
    (hct : ct.1 ∈ f.servos.map Prod.fst) :
    posOf (frameStarts sv f) (tFrac n (specSteps f)) ct =
      clampPulse (pyInt ((getPosition sv ct.1 : ℚ) +
        ((ct.2 : ℚ) - (getPosition sv ct.1 : ℚ)) * ((n : ℚ) / (specSteps f : ℚ)))) := by
  have hs : 1 ≤ specSteps f := specSteps_pos f
  have halg : alGet (frameStarts sv f) ct.1 = some (getPosition sv ct.1) :=
    alGet_keyMap (fun k => getPosition sv k) f.servos ct.1 hct
  rw [posOf, frameStarts] at *
  rw [halg, Option.getD_some]
  have hden : 0 < (Frac.add (Frac.ofInt (getPosition sv ct.1))
      (Frac.mul (Frac.sub (Frac.ofInt ct.2) (Frac.ofInt (getPosition sv ct.1)))
        (tFrac n (specSteps f)))).d := by
    simp [Frac.add, Frac.mul, Frac.sub, Frac.ofInt, tFrac, Frac.div]
    omega
  rw [trunc_eq_pyInt _ hden]
  congr 1
  have hne : ((specSteps f : Int) : ℚ) ≠ 0 := by
    have : (0 : Int) < (specSteps f : Int) := by exact_mod_cast hs
    exact_mod_cast this.ne'
  simp only [Frac.val, Frac.add, Frac.mul, Frac.sub, Frac.ofInt, tFrac, Frac.div]
  push_cast
  push_cast at hne
  field_simp

theorem setPosList_append (l1 l2 : List Ev) :
    setPosList (l1 ++ l2) = setPosList l1 ++ setPosList l2 := by
  simp [setPosList]

theorem setPosList_flatten (L : List (List Ev)) :
    setPosList L.flatten = (L.map setPosList).flatten := by
  induction L with
  | nil => rfl
  | cons l rest ih =>
      rw [List.flatten_cons, setPosList_append, ih, List.map_cons, List.flatten_cons]

theorem setPosList_targetEvents (st : List (Nat × Int)) (t : Frac)
    (tg : List (Nat × Int)) :
    setPosList (targetEvents st t tg) = tg.map (fun ct => (ct.1, posOf st t ct)) := by
  induction tg with
  | nil => rfl
  | cons ct rest ih =>
      show (ct.1, posOf st t ct) :: setPosList (targetEvents st t rest) =
        (ct.1, posOf st t ct) :: rest.map (fun ct => (ct.1, posOf st t ct))
      rw [ih]

theorem specFrame_eq (sv : Servo) (f : Keyframe) :
    setPosList (runFrame false sv f).2 = specFramePositions sv f := by
  rw [runFrame_snd, setPosList_flatten, specFramePositions, List.map_map,
    frameSteps_eq_specSteps]
  congr 1
  apply List.map_congr_left
  intro n _
  simp only [Function.comp]
  rw [setPosList_append, setPosList_targetEvents]
  have hsl : setPosList [Ev.sleep DELAY] = [] := rfl
  rw [hsl, List.append_nil]
  apply List.map_congr_left
  intro ct hct
  rw [posOf_spec sv f n ct (List.mem_map_of_mem Prod.fst hct)]

theorem loop_spec (frames : List Keyframe) :
    ∀ sv : Servo, setPosList (keyframesLoop false sv frames).2 = specRun sv frames := by
  induction frames with
  | nil => intro sv; rfl
  | cons f fs ih =>
      intro sv
      rw [keyframesLoop_cons, setPosList_append, specFrame_eq, ih]
      rfl

/-- C4 counterexample: the claim's formulas use `round`, the code
truncates with `int()`.  Frame `{servos: {0: 1003}, duration: 40}` from
position 1000: at the middle step the code commands 1001 while the
claim's `round(1000 + 3·1/2)` is 1002; and frame duration 30 ms yields 2
writes (`steps = int(1.5) = 1`) while the claim's
`steps = max(1, round(30/20)) = 2` would yield 3. -/
theorem c4_counterexample :
    setPosList (playKeyframes [⟨some 40, [(0, 1003)]⟩] true
      ⟨false, false, ⟨[], [(0, 1000)]⟩, none⟩).events = [(0, 1000), (0, 1001), (0, 1003)]
    ∧ pyRound ((1000 : ℚ) + ((1003 : ℚ) - (1000 : ℚ)) * ((1 : ℚ) / 2)) = 1002
    ∧ setPosList (playKeyframes [⟨some 30, [(0, 1003)]⟩] true
      ⟨false, false, ⟨[], [(0, 1000)]⟩, none⟩).events = [(0, 1000), (0, 1003)]
    ∧ max 1 (pyRound ((30 : ℚ) / 20)) = 2 := by
  refine ⟨by decide, ?_, by decide, ?_⟩
  · have hv : (1000 : ℚ) + ((1003 : ℚ) - (1000 : ℚ)) * ((1 : ℚ) / 2) =
        Frac.val ⟨2003, 2⟩ := by
      rw [Frac.val_mk]
      push_cast
      norm_num
    rw [hv, ← round_eq_pyRound ⟨2003, 2⟩ (by norm_num)]
    decide
  · have hv : ((30 : ℚ) / 20) = Frac.val ⟨30, 20⟩ := by
      rw [Frac.val_mk]
      push_cast
      norm_num
    rw [hv, ← round_eq_pyRound ⟨30, 20⟩ (by norm_num)]
    decide

/-- C4 (amended): the stepping loop computes
`steps = max(1, int(duration_ms / step_interval_ms))` (Python `int()`
truncation, not `round`) and for each `step_num` in `0..=steps` commands
each targeted channel to
`int(starts[ch] + (target[ch] - starts[ch]) * step_num/steps)` clamped to
`[MIN_PULSE, MAX_PULSE]`, where `starts[ch]` is read fresh from
`ActuatorPort.get_position` at the start of that frame. -/
theorem c4_amended (s : Anim) (frames : List Keyframe)
    (h1 : s.isAnimating = false) (h2 : s.audio = none) :
    setPosList (playKeyframes frames true s).events = specRun s.servo frames
    ∧ ∀ (sv : Servo) (f : Keyframe),
        setPosList (runFrame false sv f).2 = specFramePositions sv f := by
  refine ⟨?_, fun sv f => specFrame_eq sv f⟩
  have hev : (playKeyframes frames true s).events =
      (keyframesLoop false s.servo frames).2 := by
    rw [playKeyframes, runSession, if_neg (by rw [h1]; exact Bool.false_ne_true)]
    show (keyframesBody frames true
      { s with isAnimating := true, stopRequested := false }).events = _
    have hau : ({ s with isAnimating := true, stopRequested := false } : Anim).audio
        = none := h2
    simp [keyframesBody, hau, h2]
  rw [hev, loop_spec]

/-- C4 amended witness: the refinement on a concrete frame list and
state. -/
theorem c4_amended_witness :
    setPosList (playKeyframes [⟨some 40, [(0, 1003)]⟩] true
      ⟨false, false, ⟨[], [(0, 1000)]⟩, none⟩).events =
      specRun ⟨[], [(0, 1000)]⟩ [⟨some 40, [(0, 1003)]⟩]
    ∧ setPosList (runFrame false ⟨[], [(0, 1000)]⟩ ⟨some 40, [(0, 1003)]⟩).2 =
        specFramePositions ⟨[], [(0, 1000)]⟩ ⟨some 40, [(0, 1003)]⟩ :=
  ⟨(c4_amended ⟨false, false, ⟨[], [(0, 1000)]⟩, none⟩ [⟨some 40, [(0, 1003)]⟩]
      rfl rfl).1,
   (c4_amended ⟨false, false, ⟨[], [(0, 1000)]⟩, none⟩ [⟨some 40, [(0, 1003)]⟩]
      rfl rfl).2 ⟨[], [(0, 1000)]⟩ ⟨some 40, [(0, 1003)]⟩⟩

/-- C5 counterexample: the sampler is `range(0, duration_ms + 1, 50)`, so
for `duration_ms = 120` the sample times are `[0, 50, 100]` — the time
`duration_ms` itself is *not* sampled (the claim asserts it always is). -/
theorem c5_counterexample :
    sampleTimes 120 = [0, 50, 100]
    ∧ 120 ∉ sampleTimes 120
    ∧ sampleAnimation [(0, [⟨0, 1000⟩])] 120 =
        [⟨some 50, [(0, 1000)]⟩, ⟨some 50, [(0, 1000)]⟩, ⟨some 50, [(0, 1000)]⟩] := by
  refine ⟨by decide, by decide, by decide⟩

/-- C5 (amended): saved-animation sampling evaluates the Interpolator for
every channel at the times `0, 50, …, 50·⌊duration_ms/50⌋` (the sample at
`duration_ms` itself is produced exactly when `duration_ms` is a multiple
of 50), with one 50 ms frame per sample and the global constant
`CENTER_PULSE = 1500` as the default for every channel. -/
theorem c5_amended (curves : List (Nat × List Point)) (d : Nat) :
    sampleAnimation curves d =
      (List.range (d / 50 + 1)).map (fun i =>
        { duration := some 50,
          servos := curves.map (fun cp =>
            (cp.1, getValueAtTime cp.2 ((50 * i : Nat) : Int) CENTER_PULSE)) })
    ∧ (d ∈ sampleTimes d ↔ 50 ∣ d)
    ∧ CENTER_PULSE = 1500 := by
  have h1 : sampleTimes d = (List.range (d / 50 + 1)).map (fun i => i * 50) := by
    have hc : (d + 1 + 50 - 1) / 50 = d / 50 + 1 := by omega
    rw [sampleTimes, pyRangeNat, hc]
  refine ⟨?_, ?_, rfl⟩
  · rw [sampleAnimation, h1, List.map_map]
    apply List.map_congr_left
    intro i _
    simp only [Function.comp]
    rw [Nat.mul_comm i 50]
  · rw [h1]
    simp only [List.mem_map, List.mem_range]
    constructor
    · rintro ⟨i, _, rfl⟩
      exact ⟨i, (Nat.mul_comm i 50)⟩
    · rintro ⟨c, rfl⟩
      exact ⟨c, by omega, by omega⟩

end DroidRig
